import Mathlib

set_option maxHeartbeats 1000000
set_option maxRecDepth 16384

/-!
# Verification of `api.go` from the `digitalocean` Go package

This file is a shallow embedding of the single source file `api.go`:
the `Client` data type, `NewClient`, `Client.NewRequest`, `parseErr`,
`decodeBody` and `checkResp`, together with models of the pieces of the
Go standard library those functions call (`net/url` percent-encoding,
`url.Values.Encode`, `url.ParseQuery`, `encoding/json.Unmarshal` at the
`DoError` type, `net/http.NewRequest` and `Header.Add`).  Go strings and
response bodies are byte sequences, modelled as lists of `Fin 256`.
Side effects on the response body stream (reads and closes) are made
explicit in the return values of the embedded functions.
-/

/-- A byte, the unit of Go strings and response bodies. -/
abbrev Byte := Fin 256

/-- A Go string or byte slice, viewed as its byte content. -/
abbrev BStr := List Byte

/-- The bytes of an ASCII Lean string literal (used for concrete Go string
constants; all constants in scope are ASCII). -/
def s2b (s : String) : BStr :=
  s.data.map (fun c => ⟨c.toNat % 256, Nat.mod_lt _ (by decide)⟩)

/-- Error values produced or propagated by the embedded functions.
`transport` stands for an arbitrary error handed over by the HTTP
transport (made distinguishable by an opaque index); `jsonErr` abstracts
the error value returned by Go's `encoding/json` on a failed `Unmarshal`;
`wrapDecode` models `fmt.Errorf("Error parsing error body for non-200
request: %s", err)` from `parseErr`; `apiError` models
`fmt.Errorf("API Error: %s: %s", errBody.Id, errBody.Message)`. -/
inductive GoError where
  | transport (code : Nat)
  | jsonErr
  | wrapDecode (inner : GoError)
  | apiError (id message : BStr)
  deriving DecidableEq, Repr

/-- The error string carried by an embedded error value, as produced by
`fmt`.  The exact text of transport errors and of `encoding/json` errors
originates outside `api.go` and is kept abstract. -/
def GoError.message : GoError → BStr
  | GoError.transport _ => s2b "transport error"
  | GoError.jsonErr => s2b "invalid JSON value"
  | GoError.wrapDecode inner =>
      s2b "Error parsing error body for non-200 request: " ++ inner.message
  | GoError.apiError id msg => s2b "API Error: " ++ id ++ s2b ": " ++ msg

/-- `DIGITALOCEAN_API_URL` from api.go. -/
def DIGITALOCEAN_API_URL : String := "https://api.digitalocean.com/v2"

/-- `Client` from api.go.  The optional `Http` transport field is omitted:
none of the embedded functions reads it. -/
structure Client where
  Token : String
  URL : String
  deriving DecidableEq, Repr

/-- `NewClient` from api.go: binds the token to the fixed default base URL
and always returns a nil error. -/
def NewClient (token : String) : Client × Option GoError :=
  ({ Token := token, URL := DIGITALOCEAN_API_URL }, none)

/-! ## Percent-encoding (`net/url`)

`url.Values.Encode` escapes keys and values with `url.QueryEscape`
(mode `encodeQueryComponent`): alphanumerics and `-`, `.`, `_`, `~` are
kept, space becomes `+`, every other byte becomes `%XX` with uppercase
hex digits. -/

/-- Bytes left unescaped by Go's `url.QueryEscape`. -/
def isUnreserved (b : Byte) : Bool :=
  decide ((48 ≤ b.val ∧ b.val ≤ 57) ∨ (65 ≤ b.val ∧ b.val ≤ 90) ∨
    (97 ≤ b.val ∧ b.val ≤ 122) ∨ b.val = 45 ∨ b.val = 46 ∨ b.val = 95 ∨ b.val = 126)

/-- Uppercase hex digit, as Go's escaping uses ("0123456789ABCDEF"). -/
def hexDig (n : Nat) : Byte :=
  ⟨(if n < 10 then 48 + n else 55 + n) % 256, Nat.mod_lt _ (by decide)⟩

/-- `url.QueryEscape` on a single byte. -/
def escapeByte (b : Byte) : BStr :=
  if isUnreserved b then [b]
  else if b.val = 32 then [⟨43, by decide⟩]
  else [⟨37, by decide⟩, hexDig (b.val / 16), hexDig (b.val % 16)]

/-- `url.QueryEscape` on a byte string. -/
def escapeStr : BStr → BStr
  | [] => []
  | b :: rest => escapeByte b ++ escapeStr rest

/-- Byte-wise lexicographic order on Go strings, as used by `sort.Strings`
inside `url.Values.Encode`. -/
def bleLex : BStr → BStr → Bool
  | [], _ => true
  | _ :: _, [] => false
  | a :: xs, b :: ys =>
      if a.val < b.val then true else if b.val < a.val then false else bleLex xs ys

/-- Insert a key/value pair into a key-sorted list. -/
def insertK (x : BStr × BStr) : List (BStr × BStr) → List (BStr × BStr)
  | [] => [x]
  | y :: ys => if bleLex x.1 y.1 then x :: y :: ys else y :: insertK x ys

/-- Insertion sort by key, modelling the key sort in `url.Values.Encode`. -/
def sortByKey : List (BStr × BStr) → List (BStr × BStr)
  | [] => []
  | x :: xs => insertK x (sortByKey xs)

/-- One `key=value` segment of the encoded query. -/
def encPair (p : BStr × BStr) : BStr :=
  escapeStr p.1 ++ ⟨61, by decide⟩ :: escapeStr p.2

/-- Join segments with `&` (byte 38). -/
def joinAmp : List BStr → BStr
  | [] => []
  | [s] => s
  | s :: t :: rest => s ++ ⟨38, by decide⟩ :: joinAmp (t :: rest)

/-- `url.Values.Encode` for the values built in `NewRequest`, where each
parameter key is added exactly once: sort the pairs by key and join the
escaped `key=value` segments with `&`. -/
def encodeValues (l : List (BStr × BStr)) : BStr :=
  joinAmp ((sortByKey l).map encPair)

/-! ## Request construction (`net/http`) -/

/-- RFC 7230 token characters, as accepted by `net/http`'s method check. -/
def isTokenChar (c : Char) : Bool :=
  decide ((48 ≤ c.toNat ∧ c.toNat ≤ 57) ∨ (65 ≤ c.toNat ∧ c.toNat ≤ 90) ∨
    (97 ≤ c.toNat ∧ c.toNat ≤ 122) ∨ c.toNat = 33 ∨ c.toNat = 35 ∨ c.toNat = 36 ∨
    c.toNat = 37 ∨ c.toNat = 38 ∨ c.toNat = 39 ∨ c.toNat = 42 ∨ c.toNat = 43 ∨
    c.toNat = 45 ∨ c.toNat = 46 ∨ c.toNat = 94 ∨ c.toNat = 95 ∨ c.toNat = 96 ∨
    c.toNat = 124 ∨ c.toNat = 126)

/-- `net/http`'s `validMethod`: a non-empty run of token characters. -/
def validMethod (m : String) : Bool :=
  decide (m ≠ "") && m.data.all isTokenChar

/-- The parts of the request URL tracked by the embedding.  `url.Parse` of
the configured base URL is modelled as succeeding and keeping the parsed
URL whole in `base`; `rawQuery` is the `RawQuery` field `NewRequest`
assigns.  (`URL.String()` would render `base` followed by `?` and
`rawQuery` when the query is non-empty.) -/
structure ReqURL where
  base : String
  rawQuery : BStr
  deriving DecidableEq, Repr

/-- An outbound `http.Request` restricted to the fields api.go sets:
method, target URL and headers.  Headers are a list of key/value pairs in
insertion order. -/
structure Request where
  method : String
  url : ReqURL
  header : List (String × String)
  deriving DecidableEq, Repr

/-- `net/http` `Header.Add`.  MIME canonicalization of the key is omitted:
the only key used, "Authorization", is already canonical. -/
def headerAdd (h : List (String × String)) (k v : String) : List (String × String) :=
  h ++ [(k, v)]

/-- `Client.NewRequest` from api.go.  The Go map `params` is passed as its
entry list (each key at most once, in an arbitrary order).  Following the
source line by line: build `url.Values` from the entries, parse the base
URL (modelled as succeeding for every stored base URL string), set its
`RawQuery` to the encoded values, call `http.NewRequest` (which defaults
an empty method to GET and rejects invalid method tokens), and add the
Authorization header.  Note that, exactly as in the source, the
`endpoint` argument is accepted but never used. -/
def Client.NewRequest (c : Client) (params : List (BStr × BStr))
    (method : String) (endpoint : String) : Except String Request :=
  -- p := url.Values{}; for k, v := range params { p.Add(k, v) }
  -- u, err := url.Parse(c.URL); u.RawQuery = p.Encode()
  let u : ReqURL := { base := c.URL, rawQuery := encodeValues params }
  -- req, err := http.NewRequest(method, u.String(), nil)
  let m := if method = "" then "GET" else method
  if validMethod m then
    let req : Request := { method := m, url := u, header := [] }
    -- req.Header.Add("Authorization", fmt.Sprintf("Bearer %s", c.Token))
    Except.ok { req with header := headerAdd req.header "Authorization" ("Bearer " ++ c.Token) }
  else
    Except.error "Error creating request: net/http: invalid method"

/-! ## JSON decoding (`encoding/json`, at the `DoError` type)

`decodeBody` in api.go hands the full body to `json.Unmarshal` with an
`out` of type `*DoError`.  The model below parses the body as a JSON
value and applies Go's unmarshalling rules for a struct with two string
fields.  Modelled subset: `\uXXXX` string escapes are treated as a
decode failure, number syntax is recognized loosely (a run of number
characters after a digit or minus), and invalid UTF-8 replacement inside
strings is not performed; no claim depends on these corners. -/

/-- `DoError` from api.go (JSON field names `id` and `message`). -/
structure DoError where
  Id : BStr
  Message : BStr
  deriving DecidableEq, Repr

/-- A parsed JSON value.  Numbers carry no payload: api.go never reads a
numeric value (a number in an `id`/`message` position is a type error,
and numbers elsewhere are ignored). -/
inductive Json where
  | null
  | jbool (b : Bool)
  | num
  | str (s : BStr)
  | arr (elems : List Json)
  | obj (fields : List (BStr × Json))

/-- JSON insignificant whitespace. -/
def isWS (b : Byte) : Bool :=
  decide (b.val = 32 ∨ b.val = 9 ∨ b.val = 10 ∨ b.val = 13)

/-- Drop leading JSON whitespace. -/
def skipWS : BStr → BStr
  | [] => []
  | b :: r => if isWS b then skipWS r else b :: r

/-- Decode one single-character JSON string escape (`\uXXXX` escapes are
outside the modelled subset and fail). -/
def decEsc (e : Byte) : Option Byte :=
  if e.val = 34 ∨ e.val = 92 ∨ e.val = 47 then some e
  else if e.val = 98 then some ⟨8, by decide⟩
  else if e.val = 102 then some ⟨12, by decide⟩
  else if e.val = 110 then some ⟨10, by decide⟩
  else if e.val = 114 then some ⟨13, by decide⟩
  else if e.val = 116 then some ⟨9, by decide⟩
  else none

/-- Parse the body of a JSON string (after the opening quote), returning
the decoded content and the input after the closing quote. -/
def parseStringBody : BStr → Option (BStr × BStr)
  | [] => none
  | b :: r =>
    if b.val = 34 then some ([], r)
    else if b.val = 92 then
      match r with
      | [] => none
      | e :: r2 =>
        match decEsc e with
        | some c => (fun p => (c :: p.1, p.2)) <$> parseStringBody r2
        | none => none
    else (fun p => (b :: p.1, p.2)) <$> parseStringBody r

/-- Characters that may continue a JSON number. -/
def isNumChar (b : Byte) : Bool :=
  decide ((48 ≤ b.val ∧ b.val ≤ 57) ∨ b.val = 45 ∨ b.val = 43 ∨
    b.val = 46 ∨ b.val = 101 ∨ b.val = 69)

/-- Require `lit` as a prefix of the input and drop it. -/
def dropLit : BStr → BStr → Option BStr
  | [], r => some r
  | _ :: _, [] => none
  | c :: cs, b :: r => if b = c then dropLit cs r else none

mutual

/-- Parse one JSON value, returning it and the remaining input.  `fuel`
bounds the recursion depth; `parseJson` supplies enough for any input. -/
def parseValue : Nat → BStr → Option (Json × BStr)
  | 0, _ => none
  | fuel + 1, l =>
    match skipWS l with
    | [] => none
    | b :: r =>
      if b.val = 34 then (fun p => (Json.str p.1, p.2)) <$> parseStringBody r
      else if b.val = 123 then
        match skipWS r with
        | [] => none
        | c :: r2 =>
          if c.val = 125 then some (Json.obj [], r2)
          else (fun p => (Json.obj p.1, p.2)) <$> parseMembers fuel (c :: r2)
      else if b.val = 91 then
        match skipWS r with
        | [] => none
        | c :: r2 =>
          if c.val = 93 then some (Json.arr [], r2)
          else (fun p => (Json.arr p.1, p.2)) <$> parseElems fuel (c :: r2)
      else if b.val = 116 then (fun r2 => (Json.jbool true, r2)) <$> dropLit (s2b "rue") r
      else if b.val = 102 then (fun r2 => (Json.jbool false, r2)) <$> dropLit (s2b "alse") r
      else if b.val = 110 then (fun r2 => (Json.null, r2)) <$> dropLit (s2b "ull") r
      else if decide ((48 ≤ b.val ∧ b.val ≤ 57) ∨ b.val = 45) then
        some (Json.num, r.dropWhile isNumChar)
      else none

/-- Parse the members of a JSON object, positioned at the first key;
consumes the closing brace. -/
def parseMembers : Nat → BStr → Option (List (BStr × Json) × BStr)
  | 0, _ => none
  | fuel + 1, l =>
    match skipWS l with
    | [] => none
    | b :: r =>
      if b.val = 34 then
        match parseStringBody r with
        | none => none
        | some (key, r2) =>
          match skipWS r2 with
          | [] => none
          | c :: r3 =>
            if c.val = 58 then
              match parseValue fuel r3 with
              | none => none
              | some (v, r4) =>
                match skipWS r4 with
                | [] => none
                | d :: r5 =>
                  if d.val = 44 then
                    (fun p => ((key, v) :: p.1, p.2)) <$> parseMembers fuel r5
                  else if d.val = 125 then some ([(key, v)], r5)
                  else none
            else none
      else none

/-- Parse the elements of a JSON array, positioned at the first element;
consumes the closing bracket. -/
def parseElems : Nat → BStr → Option (List Json × BStr)
  | 0, _ => none
  | fuel + 1, l =>
    match parseValue fuel l with
    | none => none
    | some (v, r) =>
      match skipWS r with
      | [] => none
      | d :: r2 =>
        if d.val = 44 then (fun p => (v :: p.1, p.2)) <$> parseElems fuel r2
        else if d.val = 93 then some ([v], r2)
        else none

end

/-- Parse a complete JSON document: one value with only whitespace after
it, as `json.Unmarshal` requires. -/
def parseJson (l : BStr) : Option Json :=
  match parseValue (l.length + 1) l with
  | some (v, rest) => if skipWS rest = [] then some v else none
  | none => none

/-- ASCII lowercase of a byte, for Go's case-insensitive JSON field-name
matching. -/
def lowerByte (b : Byte) : Byte :=
  if h : 65 ≤ b.val ∧ b.val ≤ 90 then ⟨b.val + 32, by omega⟩ else b

/-- ASCII lowercase of a byte string. -/
def lowerB (s : BStr) : BStr := s.map lowerByte

/-- Assign one decoded JSON object member to the `DoError` being filled,
as `encoding/json` does: field names match case-insensitively, `null`
leaves the field unchanged, a non-string value for a string field is an
unmarshal error, and unknown fields are ignored. -/
def setField (d : DoError) (kv : BStr × Json) : Option DoError :=
  if lowerB kv.1 = s2b "id" then
    match kv.2 with
    | Json.str s => some { d with Id := s }
    | Json.null => some d
    | _ => none
  else if lowerB kv.1 = s2b "message" then
    match kv.2 with
    | Json.str s => some { d with Message := s }
    | Json.null => some d
    | _ => none
  else some d

/-- Fold `setField` over the object members (later duplicates win, as in
Go). -/
def setFields (d : DoError) : List (BStr × Json) → Option DoError
  | [] => some d
  | kv :: rest =>
    match setField d kv with
    | some d2 => setFields d2 rest
    | none => none

/-- `json.Unmarshal(body, errBody)` with `errBody : *DoError`: the body
must be a JSON object (filling the fields from its members) or `null`
(leaving the zero value); any other document, or a syntax error, fails. -/
def unmarshalDoError (body : BStr) : Option DoError :=
  match parseJson body with
  | some (Json.obj fields) => setFields { Id := [], Message := [] } fields
  | some Json.null => some { Id := [], Message := [] }
  | _ => none

/-! ## The response validator (`decodeBody`, `parseErr`, `checkResp`) -/

/-- An `http.Response` restricted to the fields api.go reads: the status
code and the full content of the body stream. -/
structure Response where
  StatusCode : Nat
  Body : BStr
  deriving DecidableEq, Repr

/-- Side effects performed on the response body stream: how many times it
was fully read (`ioutil.ReadAll`) and how many times it was closed. -/
structure Effects where
  reads : Nat
  closes : Nat
  deriving DecidableEq, Repr

/-- `decodeBody` from api.go, instantiated as at its only call site with
`out` of type `*DoError`: read the whole body, close it, then unmarshal.
Reading the in-memory body cannot fail, so the only error source is
`json.Unmarshal`.  The `Effects` component records the body reads and
closes performed. -/
def decodeBody (resp : Response) : Except GoError DoError × Effects :=
  -- body, err := ioutil.ReadAll(resp.Body); resp.Body.Close()
  match unmarshalDoError resp.Body with
  | some d => (Except.ok d, ⟨1, 1⟩)
  | none => (Except.error GoError.jsonErr, ⟨1, 1⟩)

/-- `parseErr` from api.go. -/
def parseErr (resp : Response) : GoError × Effects :=
  match decodeBody resp with
  | (Except.ok d, eff) => (GoError.apiError d.Id d.Message, eff)
  | (Except.error e, eff) => (GoError.wrapDecode e, eff)

/-- `checkResp` from api.go, with the body side effects made explicit.
The status test is the source's literal
`resp.StatusCode != 200 || resp.StatusCode != 204`. -/
def checkResp (resp : Response) (err : Option GoError) :
    (Response × Option GoError) × Effects :=
  match err with
  | some e => ((resp, some e), ⟨0, 0⟩)
  | none =>
    if resp.StatusCode ≠ 200 ∨ resp.StatusCode ≠ 204 then
      let pe := parseErr resp
      ((resp, some pe.1), pe.2)
    else ((resp, none), ⟨0, 0⟩)

/-! ## Query decoding (`net/url`: `QueryUnescape`, `ParseQuery`)

Claim C4 relates the encoded query string back to the parameter mapping
through standard URL decoding; the decoder modelled here is Go's
`url.ParseQuery`/`QueryUnescape`. -/

/-- The value of a hex digit byte. -/
def hexVal (b : Byte) : Option (Fin 16) :=
  if h : 48 ≤ b.val ∧ b.val ≤ 57 then some ⟨b.val - 48, by omega⟩
  else if h : 65 ≤ b.val ∧ b.val ≤ 70 then some ⟨b.val - 55, by omega⟩
  else if h : 97 ≤ b.val ∧ b.val ≤ 102 then some ⟨b.val - 87, by omega⟩
  else none

/-- `url.QueryUnescape`: `%XX` hex escapes are decoded (failing on a bad
or truncated escape) and `+` decodes to space. -/
def unescapeB : BStr → Option BStr
  | [] => some []
  | b :: rest =>
    if b.val = 37 then
      match rest with
      | h1 :: h2 :: rest2 =>
        match hexVal h1, hexVal h2 with
        | some x, some y =>
          (fun t => (⟨16 * x.val + y.val, by
            have hx := x.isLt; have hy := y.isLt; omega⟩ : Byte) :: t) <$> unescapeB rest2
        | _, _ => none
      | _ => none
    else if b.val = 43 then (fun t => (⟨32, by decide⟩ : Byte) :: t) <$> unescapeB rest
    else (fun t => b :: t) <$> unescapeB rest

/-- Split the query on `&` (byte 38), as the loop in `url.ParseQuery`
cuts the query; the result is never empty and keeps empty segments
(which the consumer skips). -/
def splitAmp : BStr → List BStr
  | [] => [[]]
  | b :: rest =>
    if b.val = 38 then [] :: splitAmp rest
    else
      match splitAmp rest with
      | s :: ss => (b :: s) :: ss
      | [] => [[b]]

/-- Cut a segment at the first `=` (byte 61); when absent the value is
empty, as in `url.ParseQuery`. -/
def cutEq : BStr → BStr × BStr
  | [] => ([], [])
  | b :: rest =>
    if b.val = 61 then ([], rest)
    else ((b :: (cutEq rest).1), (cutEq rest).2)

/-- Parse one `key=value` segment as `url.ParseQuery` does: a segment
containing `;` (byte 59) is invalid, otherwise key and value are
percent-decoded; a segment that fails to decode contributes no pair
(`ParseQuery` records the error and continues with the rest). -/
def parseSeg (seg : BStr) : Option (BStr × BStr) :=
  if seg.any (fun b => b.val == 59) then none
  else
    match unescapeB (cutEq seg).1, unescapeB (cutEq seg).2 with
    | some k, some v => some (k, v)
    | _, _ => none

/-- The key/value pairs produced by `url.ParseQuery`, flattening the
`url.Values` multimap into the pairs in parse order (empty segments are
skipped, as in the Go loop). -/
def parseQueryPairs (l : BStr) : List (BStr × BStr) :=
  ((splitAmp l).filter (fun s => !s.isEmpty)).filterMap parseSeg

/-! ## Lemmas: the encode/decode roundtrip -/

/-- Unescaped bytes are neither `%` (37) nor `+` (43), so the decoder
treats them literally. -/
theorem unreserved_not_special :
    ∀ b : Byte, isUnreserved b = true → b.val ≠ 37 ∧ b.val ≠ 43 := by decide

/-- Decoding the high hex digit of a byte recovers `b.val / 16`. -/
theorem hexVal_hexDig_div (b : Byte) :
    hexVal (hexDig (b.val / 16)) = some ⟨b.val / 16, by have h := b.isLt; omega⟩ := by
  revert b; decide

/-- Decoding the low hex digit of a byte recovers `b.val % 16`. -/
theorem hexVal_hexDig_mod (b : Byte) :
    hexVal (hexDig (b.val % 16)) = some ⟨b.val % 16, by omega⟩ := by
  revert b; decide

/-- The decoder consumes one literal byte when it is not `%` or `+`. -/
theorem unescapeB_not_special (b : Byte) (rest : BStr) (h37 : b.val ≠ 37) (h43 : b.val ≠ 43) :
    unescapeB (b :: rest) = (fun t => b :: t) <$> unescapeB rest := by
  rcases rest with _ | ⟨h1, _ | ⟨h2, r⟩⟩ <;> simp [unescapeB, h37, h43]

/-- The decoder turns `+` into a space byte. -/
theorem unescapeB_plus (rest : BStr) :
    unescapeB (⟨43, by decide⟩ :: rest) =
      (fun t => (⟨32, by decide⟩ : Byte) :: t) <$> unescapeB rest := by
  rcases rest with _ | ⟨h1, _ | ⟨h2, r⟩⟩ <;> simp [unescapeB]

/-- The decoder turns the hex escape of a byte back into that byte. -/
theorem unescapeB_percent (b : Byte) (rest : BStr) :
    unescapeB (⟨37, by decide⟩ :: hexDig (b.val / 16) :: hexDig (b.val % 16) :: rest) =
      (fun t => b :: t) <$> unescapeB rest := by
  simp only [unescapeB, hexVal_hexDig_div, hexVal_hexDig_mod, if_pos]
  cases unescapeB rest with
  | none => rfl
  | some t =>
    simp only [Option.map_some]
    congr 2
    apply Fin.ext
    show 16 * (b.val / 16) + b.val % 16 = b.val
    omega

/-- Decoding after escaping one byte peels off exactly that byte. -/
theorem unescapeB_escapeByte (b : Byte) (rest : BStr) :
    unescapeB (escapeByte b ++ rest) = (fun t => b :: t) <$> unescapeB rest := by
  by_cases hu : isUnreserved b = true
  · obtain ⟨h37, h43⟩ := unreserved_not_special b hu
    have he : escapeByte b = [b] := by unfold escapeByte; rw [if_pos hu]
    rw [he, List.singleton_append]
    exact unescapeB_not_special b rest h37 h43
  · by_cases h32 : b.val = 32
    · have hb : b = ⟨32, by decide⟩ := Fin.ext h32
      subst hb
      have he : escapeByte ⟨32, by decide⟩ = [⟨43, by decide⟩] := by decide
      rw [he, List.singleton_append, unescapeB_plus]
    · have he : escapeByte b = [⟨37, by decide⟩, hexDig (b.val / 16), hexDig (b.val % 16)] := by
        unfold escapeByte
        rw [if_neg hu, if_neg h32]
      rw [he, List.cons_append, List.cons_append, List.cons_append, List.nil_append,
        unescapeB_percent]

/-- Decoding after escaping a byte string peels off exactly that string. -/
theorem unescapeB_escapeStr (s rest : BStr) :
    unescapeB (escapeStr s ++ rest) = (fun t => s ++ t) <$> unescapeB rest := by
  induction s with
  | nil =>
    rw [escapeStr, List.nil_append]
    cases unescapeB rest <;> rfl
  | cons b s ih =>
    rw [escapeStr, List.append_assoc, unescapeB_escapeByte, ih]
    cases unescapeB rest <;> rfl

/-- `QueryUnescape` is a left inverse of `QueryEscape`. -/
theorem unescapeB_escape (s : BStr) : unescapeB (escapeStr s) = some s := by
  have h := unescapeB_escapeStr s []
  rw [List.append_nil] at h
  rw [h]
  simp [unescapeB]

/-- Unreserved bytes are not the structural bytes 38, 61, 59. -/
theorem unreserved_vals :
    ∀ b : Byte, isUnreserved b = true → b.val ≠ 38 ∧ b.val ≠ 61 ∧ b.val ≠ 59 := by decide

/-- Hex digit bytes are not the structural bytes 38, 61, 59. -/
theorem hexDig_vals :
    ∀ n : Fin 16, (hexDig n.val).val ≠ 38 ∧ (hexDig n.val).val ≠ 61 ∧ (hexDig n.val).val ≠ 59 := by
  decide

/-- Escaped output never contains the structural bytes `&` (38), `=` (61)
or `;` (59). -/
theorem escapeByte_sepFree (b : Byte) :
    ∀ c ∈ escapeByte b, c.val ≠ 38 ∧ c.val ≠ 61 ∧ c.val ≠ 59 := by
  intro c hc
  unfold escapeByte at hc
  split at hc
  · rw [List.mem_singleton] at hc
    subst hc
    next h => exact unreserved_vals c h
  · split at hc
    · rw [List.mem_singleton] at hc
      subst hc
      exact ⟨by decide, by decide, by decide⟩
    · have hdiv : b.val / 16 < 16 := by have h := b.isLt; omega
      have hmod : b.val % 16 < 16 := by omega
      rcases List.mem_cons.mp hc with rfl | hc
      · exact ⟨by decide, by decide, by decide⟩
      rcases List.mem_cons.mp hc with rfl | hc
      · exact hexDig_vals ⟨b.val / 16, hdiv⟩
      rcases List.mem_singleton.mp hc with rfl
      exact hexDig_vals ⟨b.val % 16, hmod⟩

/-- Escaped strings never contain the structural bytes 38, 61, 59. -/
theorem escapeStr_sepFree (s : BStr) :
    ∀ c ∈ escapeStr s, c.val ≠ 38 ∧ c.val ≠ 61 ∧ c.val ≠ 59 := by
  induction s with
  | nil => intro c hc; cases hc
  | cons b s ih =>
    intro c hc
    rw [escapeStr] at hc
    rcases List.mem_append.mp hc with h | h
    · exact escapeByte_sepFree b c h
    · exact ih c h

/-- Splitting a separator-free string yields that one segment. -/
theorem splitAmp_noSep (s : BStr) (h : ∀ c ∈ s, c.val ≠ 38) : splitAmp s = [s] := by
  induction s with
  | nil => rfl
  | cons b s ih =>
    rw [splitAmp, if_neg (h b (List.mem_cons_self b s)),
      ih (fun c hc => h c (List.mem_cons_of_mem b hc))]

/-- Splitting at an explicit separator after a separator-free prefix. -/
theorem splitAmp_sep (s t : BStr) (h : ∀ c ∈ s, c.val ≠ 38) :
    splitAmp (s ++ ⟨38, by decide⟩ :: t) = s :: splitAmp t := by
  induction s with
  | nil =>
    rw [List.nil_append, splitAmp, if_pos rfl]
  | cons b s ih =>
    rw [List.cons_append, splitAmp, if_neg (h b (List.mem_cons_self b s)),
      ih (fun c hc => h c (List.mem_cons_of_mem b hc))]

/-- Cutting at the `=` that follows an `=`-free prefix. -/
theorem cutEq_append (a b : BStr) (h : ∀ c ∈ a, c.val ≠ 61) :
    cutEq (a ++ ⟨61, by decide⟩ :: b) = (a, b) := by
  induction a with
  | nil => rw [List.nil_append, cutEq, if_pos rfl]
  | cons x a ih =>
    rw [List.cons_append, cutEq, if_neg (h x (List.mem_cons_self x a)),
      ih (fun c hc => h c (List.mem_cons_of_mem x hc))]

/-- Parsing one encoded `key=value` segment recovers the pair. -/
theorem parseSeg_encPair (p : BStr × BStr) : parseSeg (encPair p) = some p := by
  have hno : ¬((encPair p).any (fun b => b.val == 59) = true) := by
    intro hcontra
    rcases List.any_eq_true.mp hcontra with ⟨c, hc, hc59⟩
    have hc59 : c.val = 59 := beq_iff_eq.mp hc59
    rw [encPair] at hc
    rcases List.mem_append.mp hc with h | h
    · exact (escapeStr_sepFree p.1 c h).2.2 hc59
    · rcases List.mem_cons.mp h with h | h
      · rw [h] at hc59; exact absurd hc59 (by decide)
      · exact (escapeStr_sepFree p.2 c h).2.2 hc59
  have hcut : cutEq (encPair p) = (escapeStr p.1, escapeStr p.2) := by
    rw [encPair]
    exact cutEq_append _ _ (fun c hc => (escapeStr_sepFree p.1 c hc).2.1)
  unfold parseSeg
  rw [if_neg hno, hcut, unescapeB_escape, unescapeB_escape]

/-- An encoded segment never contains `&`. -/
theorem encPair_no38 (p : BStr × BStr) : ∀ c ∈ encPair p, c.val ≠ 38 := by
  intro c hc
  rw [encPair] at hc
  rcases List.mem_append.mp hc with h | h
  · exact (escapeStr_sepFree p.1 c h).1
  · rcases List.mem_cons.mp h with h | h
    · rw [h]; decide
    · exact (escapeStr_sepFree p.2 c h).1

/-- An encoded segment is never empty (it contains `=`). -/
theorem encPair_ne_nil (p : BStr × BStr) : encPair p ≠ [] := by
  simp [encPair]

/-- Parsing the `&`-join of encoded segments recovers the pair list. -/
theorem parseQueryPairs_joinAmp (segs : List (BStr × BStr)) :
    parseQueryPairs (joinAmp (segs.map encPair)) = segs := by
  induction segs with
  | nil => rfl
  | cons p rest ih =>
    cases rest with
    | nil =>
      show parseQueryPairs (joinAmp [encPair p]) = [p]
      rw [show joinAmp [encPair p] = encPair p from rfl]
      unfold parseQueryPairs
      rw [splitAmp_noSep _ (encPair_no38 p)]
      simp [parseSeg_encPair p, encPair_ne_nil p]
    | cons q rest2 =>
      rw [List.map_cons, List.map_cons, joinAmp, ← List.map_cons encPair q rest2]
      unfold parseQueryPairs
      rw [splitAmp_sep _ _ (encPair_no38 p)]
      rw [List.filter_cons_of_pos (by simp [encPair_ne_nil p]),
        List.filterMap_cons_some (parseSeg_encPair p)]
      exact congrArg (p :: ·) ih

/-- Inserting into a list is a permutation of consing. -/
theorem insertK_perm (x : BStr × BStr) (l : List (BStr × BStr)) :
    (insertK x l).Perm (x :: l) := by
  induction l with
  | nil => exact List.Perm.refl _
  | cons y ys ih =>
    rw [insertK]
    by_cases h : bleLex x.1 y.1
    · rw [if_pos h]
    · rw [if_neg h]
      exact (ih.cons y).trans (List.Perm.swap x y ys)

/-- The key sort of `url.Values.Encode` permutes the pairs. -/
theorem sortByKey_perm (l : List (BStr × BStr)) : (sortByKey l).Perm l := by
  induction l with
  | nil => exact List.Perm.refl _
  | cons x xs ih => exact (insertK_perm x (sortByKey xs)).trans (ih.cons x)

/-- `ParseQuery` after `Values.Encode` recovers the parameter pairs up to
order. -/
theorem parse_encode_perm (l : List (BStr × BStr)) :
    (parseQueryPairs (encodeValues l)).Perm l := by
  unfold encodeValues
  rw [parseQueryPairs_joinAmp]
  exact sortByKey_perm l

/-- `parseErr` always reads and closes the body exactly once. -/
theorem parseErr_effects (resp : Response) : (parseErr resp).2 = ⟨1, 1⟩ := by
  cases h : unmarshalDoError resp.Body <;> simp [parseErr, decodeBody, h]

/-! ## Claims -/

/-- C1.  The claim says a response with status 200 or 204 and nil
transport error is returned unchanged with a nil error and an untouched
body.  The source's test `resp.StatusCode != 200 || resp.StatusCode !=
204` is a tautology, so even a 200 response is routed through
`parseErr`: here `checkResp` on a 200 response with body `{}` reads and
closes the body and returns the non-nil error `API Error: : `,
contradicting the claim (and the success-path comment in the source). -/
theorem checkResp_misroutes_status_200 :
    checkResp { StatusCode := 200, Body := s2b "\x7b\x7d" } none =
      (({ StatusCode := 200, Body := s2b "\x7b\x7d" }, some (GoError.apiError [] [])),
        { reads := 1, closes := 1 }) := by decide

/-- C2.  The claim says the target URL joins base URL, endpoint path and
query string.  In the source the `endpoint` argument is never used: the
request built for endpoint "/droplets" equals the one built for the
empty endpoint, and its URL consists of the base URL alone (the query is
empty here), with no endpoint path joined in. -/
theorem newRequest_ignores_endpoint :
    (NewClient "tok").1.NewRequest [] "GET" "/droplets" =
      Except.ok
        { method := "GET",
          url := { base := "https://api.digitalocean.com/v2", rawQuery := [] },
          header := [("Authorization", "Bearer tok")] } ∧
    (NewClient "tok").1.NewRequest [] "GET" "/droplets" =
      (NewClient "tok").1.NewRequest [] "GET" "" := ⟨rfl, rfl⟩

/-- C3.  Every request built from a client holding a non-empty token T
carries exactly one Authorization header, with value `"Bearer " ++ T`. -/
theorem newRequest_authorization_header (t : String) (ht : t ≠ "")
    (params : List (BStr × BStr)) (method endpoint : String) (req : Request)
    (h : ((NewClient t).1).NewRequest params method endpoint = Except.ok req) :
    req.header.filter (fun p => p.1 == "Authorization") =
      [("Authorization", "Bearer " ++ t)] := by
  simp only [Client.NewRequest] at h
  split at h
  · injection h with h
    subst h
    rfl
  · split at h
    · injection h with h
      subst h
      rfl
    · exact Except.noConfusion h

/-- Witness for C3 at token "tok", method GET, endpoint "/droplets". -/
theorem newRequest_authorization_header_witness :
    ({ method := "GET",
       url := { base := DIGITALOCEAN_API_URL, rawQuery := [] },
       header := [("Authorization", "Bearer tok")] } : Request).header.filter
        (fun p => p.1 == "Authorization") = [("Authorization", "Bearer tok")] :=
  newRequest_authorization_header "tok" (by decide) [] "GET" "/droplets"
    { method := "GET", url := { base := DIGITALOCEAN_API_URL, rawQuery := [] },
      header := [("Authorization", "Bearer tok")] } rfl

/-- C4.  The query string of a built request is the encoding of exactly
the given parameter pairs, and standard query decoding recovers those
pairs up to order. -/
theorem newRequest_query_roundtrip (c : Client) (params : List (BStr × BStr))
    (method endpoint : String) (req : Request)
    (h : c.NewRequest params method endpoint = Except.ok req) :
    req.url.rawQuery = encodeValues params ∧
    (parseQueryPairs req.url.rawQuery).Perm params := by
  have hq : req.url.rawQuery = encodeValues params := by
    simp only [Client.NewRequest] at h
    split at h
    · injection h with h
      subst h
      rfl
    · split at h
      · injection h with h
        subst h
        rfl
      · exact Except.noConfusion h
  refine ⟨hq, ?_⟩
  rw [hq]
  exact parse_encode_perm params

/-- Concrete parameter mapping exercising space, `&` and `=` escaping. -/
def paramsW : List (BStr × BStr) :=
  [(s2b "a b", s2b "c&d"), (s2b "id", s2b "x=1")]

/-- The request `NewRequest` builds for `paramsW`. -/
def reqW : Request :=
  { method := "GET",
    url := { base := DIGITALOCEAN_API_URL, rawQuery := encodeValues paramsW },
    header := [("Authorization", "Bearer t")] }

/-- Witness for C4 at `paramsW`. -/
theorem newRequest_query_roundtrip_witness :
    reqW.url.rawQuery = encodeValues paramsW ∧
    (parseQueryPairs reqW.url.rawQuery).Perm paramsW :=
  newRequest_query_roundtrip (NewClient "t").1 paramsW "GET" "" reqW rfl

/-- The 404 response of claim C5. -/
def resp404 : Response :=
  { StatusCode := 404,
    Body := s2b "\x7b\"id\":\"not_found\",\"message\":\"The resource was not found\"\x7d" }

/-- C5.  On the 404 response with the documented JSON error body, the
validator returns the `APIError` carrying id "not_found" and message
"The resource was not found"; its formatted message is exactly
`API Error: not_found: The resource was not found`, which contains both
field values verbatim. -/
theorem checkResp_404_apiError :
    checkResp resp404 none =
      ((resp404, some (GoError.apiError (s2b "not_found") (s2b "The resource was not found"))),
        { reads := 1, closes := 1 }) ∧
    (GoError.apiError (s2b "not_found") (s2b "The resource was not found")).message =
      s2b "API Error: not_found: The resource was not found" ∧
    (∃ pre post, (GoError.apiError (s2b "not_found") (s2b "The resource was not found")).message =
      pre ++ s2b "not_found" ++ post) ∧
    (∃ pre post, (GoError.apiError (s2b "not_found") (s2b "The resource was not found")).message =
      pre ++ s2b "The resource was not found" ++ post) :=
  ⟨by decide, by decide,
    ⟨s2b "API Error: ", s2b ": The resource was not found", by decide⟩,
    ⟨s2b "API Error: not_found: ", [], by decide⟩⟩

/-- C6.  On a failure-status response whose body does not decode as the
expected error shape, the validator returns the decode-wrapping error
(not an `APIError`), whose message states the non-200 condition, and the
body is read and closed exactly once. -/
theorem checkResp_bodyDecodeError (resp : Response)
    (h200 : resp.StatusCode ≠ 200) (h204 : resp.StatusCode ≠ 204)
    (hbad : unmarshalDoError resp.Body = none) :
    checkResp resp none =
      ((resp, some (GoError.wrapDecode GoError.jsonErr)), { reads := 1, closes := 1 }) ∧
    (∀ i m, GoError.wrapDecode GoError.jsonErr ≠ GoError.apiError i m) ∧
    (∃ post, (GoError.wrapDecode GoError.jsonErr).message =
      s2b "Error parsing error body for non-200 request: " ++ post) := by
  refine ⟨?_, ?_, ⟨GoError.jsonErr.message, rfl⟩⟩
  · simp only [checkResp]
    rw [if_pos (Or.inl h200)]
    simp [parseErr, decodeBody, hbad]
  · intro i m hcontra
    exact GoError.noConfusion hcontra

/-- Witness for C6 at a 500 response with a non-JSON body. -/
theorem checkResp_bodyDecodeError_witness :
    checkResp { StatusCode := 500, Body := s2b "<html>oops" } none =
      (({ StatusCode := 500, Body := s2b "<html>oops" },
        some (GoError.wrapDecode GoError.jsonErr)), { reads := 1, closes := 1 }) ∧
    (∀ i m, GoError.wrapDecode GoError.jsonErr ≠ GoError.apiError i m) ∧
    (∃ post, (GoError.wrapDecode GoError.jsonErr).message =
      s2b "Error parsing error body for non-200 request: " ++ post) :=
  checkResp_bodyDecodeError { StatusCode := 500, Body := s2b "<html>oops" }
    (by decide) (by decide) (by decide)

/-- C7.  A non-nil transport error is returned by the validator exactly
as given, with the response body neither read nor closed. -/
theorem checkResp_transport_passthrough (resp : Response) (e : GoError) :
    checkResp resp (some e) = ((resp, some e), { reads := 0, closes := 0 }) := rfl

/-- The validation step as performed by a caller holding a particular
client.  `checkResp` in the source takes no client and reads no token;
this wrapper makes that explicit so token independence can be stated. -/
def validateFor (c : Client) (resp : Response) (err : Option GoError) :
    (Response × Option GoError) × Effects :=
  checkResp resp err

/-- C8.  The validator's result is computed from the response and
transport error alone: two clients built from any two tokens validate
the same exchange with identical results (in particular identical error
values), so no error ever depends on, or can embed, the client's token. -/
theorem checkResp_token_independence (t1 t2 : String) (resp : Response)
    (err : Option GoError) :
    validateFor (NewClient t1).1 resp err = validateFor (NewClient t2).1 resp err := rfl

/-- C9.  With a nil transport error, every response — whatever its
status code — is routed through `parseErr`: the body is read and closed
exactly once and a non-nil error is returned. -/
theorem checkResp_always_errors (resp : Response) :
    ∃ e, checkResp resp none = ((resp, some e), { reads := 1, closes := 1 }) := by
  refine ⟨(parseErr resp).1, ?_⟩
  simp only [checkResp]
  rw [if_pos (by omega)]
  rw [parseErr_effects]

/-- C10.  `NewClient` accepts every token, including the empty string:
it returns a client whose `Token` is the given string and whose `URL` is
the fixed default base URL, together with a nil error. -/
theorem newClient_fields (t : String) :
    (NewClient t).1.Token = t ∧
    (NewClient t).1.URL = "https://api.digitalocean.com/v2" ∧
    (NewClient t).2 = none := ⟨rfl, rfl, rfl⟩
